import Mathlib

/-!
Verification of the social-bingo application core: the layout generator,
the participant registry (join), the cell-toggle state machine, the
presence ordering, and the recent-sessions feed.

The definitions below are shallow embeddings of the JavaScript source
(`src/App.jsx`).  Machine randomness (`Math.random()`) is modelled by
explicit oracle functions `Nat → Nat`; every outcome of the program's
random draws corresponds to some oracle, and the theorems quantify over
all oracles.  Timestamps are modelled as natural numbers (milliseconds).
-/

namespace Bingo

/-- Grid constants from the source: `const COLS = 6`. -/
def COLS : Nat := 6

/-- `const ROWS = 4`. -/
def ROWS : Nat := 4

/-- `const TOTAL_CELLS = COLS * ROWS`. -/
def TOTAL_CELLS : Nat := COLS * ROWS

/-- In-place swap of two array entries, `[a[i], a[j]] = [a[j], a[i]]`.
If either index is out of range the list is unchanged (the source only
swaps in-range indices). -/
def listSwap (l : List α) (i j : Nat) : List α :=
  match l.get? i, l.get? j with
  | some a, some b => (l.set i b).set j a
  | _, _ => l

/-- The Fisher–Yates loop
`for (let i = n-1; i > 0; i--) { j = rand(i+1); swap(l, i, j) }`,
unrolled from the current loop counter `i` down to `1`.  The oracle `r`
supplies the raw random draw at each step; `r i % (i+1)` ranges over
exactly the values `Math.floor(Math.random() * (i + 1))` can take. -/
def fyAux (r : Nat → Nat) : Nat → List α → List α
  | 0, l => l
  | i + 1, l => fyAux r i (listSwap l (i + 1) (r (i + 1) % (i + 2)))

/-- The full Fisher–Yates shuffle used by `handleCreateGame`, both for the
global item shuffle and for each row shuffle. -/
def fyShuffle (r : Nat → Nat) (l : List α) : List α :=
  fyAux r (l.length - 1) l

/-- Round-robin distribution,
`items.forEach((item, index) => rows[index % 4].push(item))`:
row bucket `k` receives, in order, the items whose post-shuffle position
is congruent to `k` mod 4. -/
def bucket (l : List α) (k : Nat) : List α :=
  (l.enum.filter (fun p => p.1 % 4 == k)).map Prod.snd

/-- Gap padding, `while (rowItems.length < COLS) rowItems.push(null)`:
append gap markers until the row holds `COLS` slots. -/
def padRow (row : List α) : List (Option α) :=
  row.map some ++ List.replicate (COLS - row.length) none

/-- One row of the layout: pad the bucket with gaps, then shuffle the
padded row (gaps included) with an independent Fisher–Yates pass. -/
def genRow (rr : Nat → Nat) (row : List α) : List (Option α) :=
  fyShuffle rr (padRow row)

/-- The layout generator inside `handleCreateGame`: shuffle the items
globally, distribute them round-robin into 4 row buckets, pad and
shuffle each row, and concatenate the 4 rows.  `r` is the oracle for the
global shuffle and `rr k` the oracle for the shuffle of row `k`. -/
def generate (r : Nat → Nat) (rr : Nat → Nat → Nat) (items : List String) :
    List (Option String) :=
  let shuffled := fyShuffle r items
  genRow (rr 0) (bucket shuffled 0) ++ genRow (rr 1) (bucket shuffled 1) ++
    genRow (rr 2) (bucket shuffled 2) ++ genRow (rr 3) (bucket shuffled 3)

/-- `String.prototype.split('\n')`: cut a character sequence at every
newline, keeping empty segments (JS split semantics for a one-character
separator). -/
def splitNl : List Char → List (List Char)
  | [] => [[]]
  | c :: cs =>
    if c = '\n' then [] :: splitNl cs
    else
      match splitNl cs with
      | [] => [[c]]
      | l :: ls => (c :: l) :: ls

/-- `line.trim() === ''`: the line consists only of whitespace, so
trimming it leaves the empty (falsy) string. -/
def isBlank (line : String) : Bool :=
  line.data.all (fun c => c.isWhitespace)

/-- Input parsing in `handleCreateGame`:
`inputList.split('\n').filter(line => line.trim() !== '')`. -/
def parseItems (input : String) : List String :=
  ((splitNl input.data).map (fun l => String.mk l)).filter (fun line => !(isBlank line))

/-- `handleCreateGame` up to the store write: reject blank input
(`!inputList.trim()`), reject an item count outside `[10, 20]`
(returning `none`: no layout computed, nothing written), otherwise
generate and commit the layout. -/
def handleCreateGame (r : Nat → Nat) (rr : Nat → Nat → Nat) (input : String) :
    Option (List (Option String)) :=
  if isBlank input then none
  else
    let items := parseItems input
    if items.length < 10 || 20 < items.length then none
    else some (generate r rr items)

end Bingo

namespace Bingo

/-! ### Permutation facts about the shuffle machinery -/

theorem count_set {α} [DecidableEq α] (l : List α) (i : Nat) (a b x : α)
    (h : l.get? i = some a) :
    (l.set i b).count x + (if a = x then 1 else 0)
      = l.count x + (if b = x then 1 else 0) := by
  induction l generalizing i with
  | nil => simp at h
  | cons y t ih =>
    cases i with
    | zero =>
      simp only [List.get?] at h
      injection h with h; subst h
      simp only [List.set, List.count_cons]
      split <;> split <;> simp_all
    | succ n =>
      simp only [List.get?] at h
      have := ih n h
      simp only [List.set, List.count_cons]
      omega

theorem listSwap_perm {α} [DecidableEq α] (l : List α) (i j : Nat) :
    (listSwap l i j).Perm l := by
  unfold listSwap
  cases hi : l.get? i with
  | none => cases l.get? j <;> exact List.Perm.refl l
  | some a =>
    cases hj : l.get? j with
    | none => exact List.Perm.refl l
    | some b =>
      dsimp only
      refine List.perm_iff_count.2 fun x => ?_
      have hj' : (l.set i b).get? j = some b := by
        by_cases hij : i = j
        · subst hij
          have : i < l.length := (List.get?_eq_some.1 hi).1
          have hb : a = b := by rw [hi] at hj; injection hj
          subst hb
          simp [List.get?_eq_getElem?, List.getElem?_set_self', this, hi]
        · rw [List.get?_eq_getElem?, List.getElem?_set_ne hij, ← List.get?_eq_getElem?, hj]
      have h1 := count_set (l.set i b) j b a x hj'
      have h2 := count_set l i a b x hi
      omega

theorem fyAux_perm {α} [DecidableEq α] (r : Nat → Nat) (i : Nat) (l : List α) :
    (fyAux r i l).Perm l := by
  induction i generalizing l with
  | zero => exact List.Perm.refl l
  | succ n ih =>
    exact (ih _).trans (listSwap_perm l (n + 1) (r (n + 1) % (n + 2)))

theorem fyShuffle_perm {α} [DecidableEq α] (r : Nat → Nat) (l : List α) :
    (fyShuffle r l).Perm l :=
  fyAux_perm r (l.length - 1) l

theorem fyShuffle_length {α} [DecidableEq α] (r : Nat → Nat) (l : List α) :
    (fyShuffle r l).length = l.length :=
  (fyShuffle_perm r l).length_eq

end Bingo

namespace Bingo

/-! ### Round-robin distribution facts -/

theorem count_filter_neg {α} [BEq α] [LawfulBEq α] {p : α → Bool} {a : α}
    (h : p a = false) (l : List α) : List.count a (l.filter p) = 0 := by
  rw [List.count_eq_zero]
  intro hmem
  have := (List.mem_filter.1 hmem).2
  rw [h] at this
  exact Bool.false_ne_true this

theorem filter_mod4_partition {α} (e : List (Nat × α)) :
    (e.filter (fun p => p.1 % 4 == 0) ++ (e.filter (fun p => p.1 % 4 == 1) ++
      (e.filter (fun p => p.1 % 4 == 2) ++
        e.filter (fun p => p.1 % 4 == 3)))).Perm e := by
  induction e with
  | nil => simp
  | cons x t ih =>
    have h4 : x.1 % 4 = 0 ∨ x.1 % 4 = 1 ∨ x.1 % 4 = 2 ∨ x.1 % 4 = 3 := by omega
    rcases h4 with h | h | h | h <;> simp only [List.filter_cons, h] <;> norm_num
    · exact ih
    · exact List.perm_middle.trans (ih.cons x)
    · exact ((List.Perm.append_left _ List.perm_middle).trans
        (List.perm_middle.trans (ih.cons x)))
    · exact ((List.Perm.append_left _ ((List.Perm.append_left _
        List.perm_middle).trans List.perm_middle)).trans
        (List.perm_middle.trans (ih.cons x)))

theorem bucket_partition {α} [DecidableEq α] (l : List α) :
    (bucket l 0 ++ (bucket l 1 ++ (bucket l 2 ++ bucket l 3))).Perm l := by
  unfold bucket
  have h := List.Perm.map Prod.snd (filter_mod4_partition l.enum)
  simp only [List.map_append] at h
  have hsnd : l.enum.map Prod.snd = l := by
    rw [List.enum_eq_enumFrom]
    exact List.enumFrom_map_snd 0 l
  rw [hsnd] at h
  exact h

theorem bucket_length {α} (l : List α) (k : Nat) :
    (bucket l k).length
      = ((List.range l.length).filter (fun i => i % 4 == k)).length := by
  unfold bucket
  rw [List.length_map]
  have hfst : l.enum.map Prod.fst = List.range l.length := by
    rw [List.enum_eq_enumFrom, List.enumFrom_map_fst]
    exact (List.range_eq_range' _).symm
  rw [← hfst, List.filter_map, List.length_map]
  rfl

theorem padRow_length {α} (row : List α) :
    (padRow row).length = row.length + (COLS - row.length) := by
  simp [padRow]

theorem filterMap_id_padRow {α} (row : List α) :
    (padRow row).filterMap id = row := by
  unfold padRow
  rw [List.filterMap_append, List.filterMap_map]
  have h1 : List.filterMap (id ∘ some) row = row := List.filterMap_some row
  have h2 : List.filterMap id (List.replicate (COLS - row.length) (none : Option α)) = [] :=
    List.filterMap_replicate_of_none rfl
  rw [h1, h2, List.append_nil]

theorem genRow_length {α} [DecidableEq α] (rr : Nat → Nat) (row : List α) :
    (genRow rr row).length = row.length + (COLS - row.length) := by
  unfold genRow
  rw [fyShuffle_length, padRow_length]

theorem genRow_filterMap_perm {α} [DecidableEq α] (rr : Nat → Nat) (row : List α) :
    ((genRow rr row).filterMap id).Perm row := by
  unfold genRow
  have h := (fyShuffle_perm rr (padRow row)).filterMap id
  rw [filterMap_id_padRow] at h
  exact h

theorem count_none_add_filterMap {α} [DecidableEq α] (l : List (Option α)) :
    l.count none + (l.filterMap id).length = l.length := by
  induction l with
  | nil => rfl
  | cons x t ih =>
    cases x <;> simp [List.count_cons, List.filterMap_cons] <;> omega

end Bingo

namespace Bingo

/-! ### Layout generator: main theorems -/

theorem generate_filterMap_perm (r : Nat → Nat) (rr : Nat → Nat → Nat)
    (items : List String) :
    ((generate r rr items).filterMap id).Perm items := by
  have hs := fyShuffle_perm r items
  have hcat : ((generate r rr items).filterMap id).Perm
      (bucket (fyShuffle r items) 0 ++ (bucket (fyShuffle r items) 1 ++
        (bucket (fyShuffle r items) 2 ++ bucket (fyShuffle r items) 3))) := by
    simp only [generate, List.filterMap_append, List.append_assoc]
    exact ((genRow_filterMap_perm _ _).append ((genRow_filterMap_perm _ _).append
      ((genRow_filterMap_perm _ _).append (genRow_filterMap_perm _ _))))
  exact hcat.trans ((bucket_partition (fyShuffle r items)).trans hs)

theorem generate_length (r : Nat → Nat) (rr : Nat → Nat → Nat)
    (items : List String) (h10 : 10 ≤ items.length) (h20 : items.length ≤ 20) :
    (generate r rr items).length = 24 := by
  have hn : (fyShuffle r items).length = items.length :=
    (fyShuffle_perm r items).length_eq
  simp only [generate, List.length_append, genRow_length]
  rw [bucket_length, bucket_length, bucket_length, bucket_length, hn]
  generalize items.length = n at h10 h20 ⊢
  interval_cases n <;> decide

/-- C1: for every list of between 10 and 20 distinct non-empty items and
every outcome of the random shuffles, the generated layout has exactly 24
slots, exactly `items.length` non-gap slots, exactly `24 - items.length`
gap slots, and the multiset of non-gap slot values is exactly the input
list (no duplication, no loss). -/
theorem c1_layout_generation (r : Nat → Nat) (rr : Nat → Nat → Nat)
    (items : List String) (h10 : 10 ≤ items.length) (h20 : items.length ≤ 20)
    (hnd : items.Nodup) (hne : ∀ s ∈ items, s ≠ "") :
    (generate r rr items).length = 24 ∧
    ((generate r rr items).filterMap id).length = items.length ∧
    (generate r rr items).count none = 24 - items.length ∧
    ((generate r rr items).filterMap id).Perm items := by
  have hperm := generate_filterMap_perm r rr items
  have hlen := generate_length r rr items h10 h20
  have hfm : ((generate r rr items).filterMap id).length = items.length :=
    hperm.length_eq
  have hcount := count_none_add_filterMap (generate r rr items)
  exact ⟨hlen, hfm, by omega, hperm⟩

/-- Witness for C1 at a concrete 10-item input. -/
theorem c1_layout_generation_witness :
    (generate (fun _ => 0) (fun _ _ => 0)
        ["a", "b", "c", "d", "e", "f", "g", "h", "i", "j"]).length = 24 ∧
    ((generate (fun _ => 0) (fun _ _ => 0)
        ["a", "b", "c", "d", "e", "f", "g", "h", "i", "j"]).filterMap id).length = 10 :=
  have h := c1_layout_generation (fun _ => 0) (fun _ _ => 0)
    ["a", "b", "c", "d", "e", "f", "g", "h", "i", "j"]
    (by decide) (by decide) (by decide) (by decide)
  ⟨h.1, h.2.1⟩

/-- C5: round-robin distribution gives each of the 4 row buckets either
`⌊n/4⌋` or `⌈n/4⌉` items, any two buckets differ by at most 1 item, and
after gap padding every generated row is exactly 6 slots long. -/
theorem c5_row_balance (r : Nat → Nat) (rr : Nat → Nat → Nat)
    (items : List String) (h10 : 10 ≤ items.length) (h20 : items.length ≤ 20) :
    (∀ k, k < 4 →
      (bucket (fyShuffle r items) k).length = items.length / 4 ∨
      (bucket (fyShuffle r items) k).length = (items.length + 3) / 4) ∧
    (∀ k₁, k₁ < 4 → ∀ k₂, k₂ < 4 →
      (bucket (fyShuffle r items) k₁).length
        ≤ (bucket (fyShuffle r items) k₂).length + 1) ∧
    (∀ k, k < 4 →
      (genRow (rr k) (bucket (fyShuffle r items) k)).length = 6) := by
  have hn : (fyShuffle r items).length = items.length :=
    (fyShuffle_perm r items).length_eq
  have hb : ∀ k, (bucket (fyShuffle r items) k).length
      = ((List.range items.length).filter (fun i => i % 4 == k)).length := by
    intro k; rw [bucket_length, hn]
  refine ⟨?_, ?_, ?_⟩
  · simp only [hb]
    generalize items.length = n at h10 h20 ⊢
    interval_cases n <;> decide
  · simp only [hb]
    generalize items.length = n at h10 h20 ⊢
    interval_cases n <;> decide
  · simp only [genRow_length, hb]
    generalize items.length = n at h10 h20 ⊢
    interval_cases n <;> decide

/-- Witness for C5 at a concrete 13-item input, row 0. -/
theorem c5_row_balance_witness :
    (genRow ((fun _ _ => 0) 0)
      (bucket (fyShuffle (fun _ => 0)
        ["a", "b", "c", "d", "e", "f", "g", "h", "i", "j", "k", "l", "m"]) 0)).length = 6 :=
  (c5_row_balance (fun _ => 0) (fun _ _ => 0)
    ["a", "b", "c", "d", "e", "f", "g", "h", "i", "j", "k", "l", "m"]
    (by decide) (by decide)).2.2 0 (by decide)

end Bingo

namespace Bingo

/-! ### Creation validation (C9) -/

/-- C9: an input whose non-blank line count is outside `[10, 20]` is
rejected by `handleCreateGame` before the generator runs: the result is
`none`, so no layout is computed and no session document is written. -/
theorem c9_validation_rejects (r : Nat → Nat) (rr : Nat → Nat → Nat)
    (input : String)
    (h : (parseItems input).length < 10 ∨ 20 < (parseItems input).length) :
    handleCreateGame r rr input = none := by
  unfold handleCreateGame
  by_cases hb : isBlank input
  · simp [hb]
  · have hcond : ((parseItems input).length < 10 || 20 < (parseItems input).length) = true := by
      rcases h with h | h <;> simp [h]
    simp [hb, hcond]

/-- Witness for C9 on a 1-line input. -/
theorem c9_validation_rejects_witness :
    handleCreateGame (fun _ => 0) (fun _ _ => 0) "a" = none :=
  c9_validation_rejects (fun _ => 0) (fun _ _ => 0) "a" (by decide)

end Bingo

namespace Bingo

/-! ### Participant records, join, and the cell toggle -/

/-- A participant document as written by the join effect:
`{ name, checkedIndices, userId, lastActive }`.  `lastActive` is an
optional millisecond timestamp (`lastActive?.toMillis()` in the source:
a record may lack the field). -/
structure ParticipantRecord where
  name : String
  checkedIndices : List Nat
  userId : String
  lastActive : Option Nat
deriving DecidableEq

/-- The session-scoped store state the participant registry touches: the
participant collection (keyed by user id) and the session's
`participantCount` field. -/
structure SessionStore where
  participants : List (String × ParticipantRecord)
  participantCount : Int
deriving DecidableEq

/-- The join effect (`ensureJoined`): read the participant document for
`uid`; if absent, write a fresh record (synthesized display name, empty
`checkedIndices`, current recency) and increment the session's
`participantCount` by 1; if present, do nothing. -/
def ensureJoined (st : SessionStore) (uid nm : String) (now : Nat) : SessionStore :=
  match st.participants.lookup uid with
  | some _ => st
  | none =>
    { participants :=
        (uid, { name := nm, checkedIndices := [], userId := uid,
                lastActive := some now }) :: st.participants,
      participantCount := st.participantCount + 1 }

/-- `toggleCell(index)`: a no-op returning no write (`none`) when the
caller's own participant data has not been observed or when the layout
slot at `index` is an in-range gap (`layout[index] === null`); otherwise
remove `index` from `checkedIndices` if present, else append it, and
refresh `lastActive` — the result is the merged record written to the
store. -/
def toggleCell (layout : List (Option String)) (my : Option ParticipantRecord)
    (now : Nat) (index : Nat) : Option ParticipantRecord :=
  match my with
  | none => none
  | some p =>
    if layout.get? index = some none then none
    else if index ∈ p.checkedIndices then
      some { p with checkedIndices := p.checkedIndices.filter (fun i => i != index),
                    lastActive := some now }
    else
      some { p with checkedIndices := p.checkedIndices ++ [index],
                    lastActive := some now }

/-- The caller's participant document in the store after a `toggleCell`
call: unchanged when no write is issued, replaced by the merged record
otherwise. -/
def storeAfterToggle (store my : Option ParticipantRecord)
    (layout : List (Option String)) (now index : Nat) : Option ParticipantRecord :=
  match toggleCell layout my now index with
  | none => store
  | some p => some p

end Bingo

namespace Bingo

/-! ### Join idempotence (C2) -/

/-- C2: a first `ensureJoined` for an absent identity writes exactly one
new participant record (with an empty marked set) and increments
`participantCount` by exactly 1; any further `ensureJoined` for the same
identity is a no-op. -/
theorem c2_ensure_joined (st : SessionStore) (uid nm : String) (now : Nat)
    (h : st.participants.lookup uid = none) :
    (ensureJoined st uid nm now).participants.length
        = st.participants.length + 1 ∧
    (ensureJoined st uid nm now).participants.lookup uid
        = some { name := nm, checkedIndices := [], userId := uid,
                 lastActive := some now } ∧
    (ensureJoined st uid nm now).participantCount = st.participantCount + 1 ∧
    (∀ nm₂ now₂,
      ensureJoined (ensureJoined st uid nm now) uid nm₂ now₂
        = ensureJoined st uid nm now) := by
  have hred : ensureJoined st uid nm now
      = { participants :=
            (uid, { name := nm, checkedIndices := [], userId := uid,
                    lastActive := some now }) :: st.participants,
          participantCount := st.participantCount + 1 } := by
    unfold ensureJoined
    rw [h]
  rw [hred]
  refine ⟨rfl, ?_, rfl, ?_⟩
  · simp [List.lookup]
  · intro nm₂ now₂
    unfold ensureJoined
    simp [List.lookup]

/-- Witness for C2 on an empty store. -/
theorem c2_ensure_joined_witness :
    (ensureJoined ⟨[], 0⟩ "u" "Red-Funky-Badger-7" 5).participants.length = 1 ∧
    (ensureJoined ⟨[], 0⟩ "u" "Red-Funky-Badger-7" 5).participantCount = 1 :=
  have h := c2_ensure_joined ⟨[], 0⟩ "u" "Red-Funky-Badger-7" 5 rfl
  ⟨h.1, h.2.2.1⟩

/-! ### Toggle properties (C3, C6, C7, C10) -/

/-- C3: toggling the same non-gap in-range index twice returns the marked
set (viewed as a set) to its pre-call value, while each of the two calls
refreshes `lastActive` to its own current time. -/
theorem c3_toggle_twice (layout : List (Option String)) (p : ParticipantRecord)
    (i : Nat) (s : String) (t₁ t₂ : Nat)
    (h : layout.get? i = some (some s)) :
    ∃ p₁ p₂, toggleCell layout (some p) t₁ i = some p₁ ∧
      toggleCell layout (some p₁) t₂ i = some p₂ ∧
      p₁.lastActive = some t₁ ∧ p₂.lastActive = some t₂ ∧
      (∀ j, j ∈ p₂.checkedIndices ↔ j ∈ p.checkedIndices) := by
  have hne : ¬ layout.get? i = some none := by rw [h]; simp
  by_cases hc : i ∈ p.checkedIndices
  · refine ⟨{ p with
                checkedIndices := p.checkedIndices.filter (fun j => j != i),
                lastActive := some t₁ },
      { p with
          checkedIndices := (p.checkedIndices.filter (fun j => j != i)) ++ [i],
          lastActive := some t₂ }, ?_, ?_, rfl, rfl, ?_⟩
    · simp only [toggleCell]
      rw [if_neg hne, if_pos hc]
    · simp only [toggleCell]
      rw [if_neg hne, if_neg ?_]
      intro hmem
      have := (List.mem_filter.1 hmem).2
      simp at this
    · intro j
      simp only [List.mem_append, List.mem_filter, List.mem_singleton,
        bne_iff_ne, ne_eq, decide_eq_true_eq]
      constructor
      · rintro (⟨hj, _⟩ | rfl)
        · exact hj
        · exact hc
      · intro hj
        by_cases hji : j = i
        · exact Or.inr hji
        · exact Or.inl ⟨hj, hji⟩
  · refine ⟨{ p with
                checkedIndices := p.checkedIndices ++ [i],
                lastActive := some t₁ },
      { p with
          checkedIndices := (p.checkedIndices ++ [i]).filter (fun j => j != i),
          lastActive := some t₂ }, ?_, ?_, rfl, rfl, ?_⟩
    · simp only [toggleCell]
      rw [if_neg hne, if_neg hc]
    · simp only [toggleCell]
      rw [if_neg hne, if_pos ?_]
      simp
    · intro j
      simp only [List.mem_filter, List.mem_append, List.mem_singleton,
        bne_iff_ne, ne_eq, decide_eq_true_eq]
      constructor
      · rintro ⟨hj | rfl, hji⟩
        · exact hj
        · exact absurd rfl hji
      · intro hj
        refine ⟨Or.inl hj, ?_⟩
        intro hji
        exact hc (hji ▸ hj)

/-- Witness for C3: marking then unmarking cell 0 on a 1-item layout. -/
theorem c3_toggle_twice_witness :
    ∃ p₁ p₂,
      toggleCell [some "a"] (some ⟨"n", [], "u", none⟩) 1 0 = some p₁ ∧
      toggleCell [some "a"] (some p₁) 2 0 = some p₂ ∧
      p₁.lastActive = some 1 ∧ p₂.lastActive = some 2 ∧
      (∀ j, j ∈ p₂.checkedIndices ↔ j ∈ (⟨"n", [], "u", none⟩ : ParticipantRecord).checkedIndices) :=
  c3_toggle_twice [some "a"] ⟨"n", [], "u", none⟩ 0 "a" 1 2 rfl

/-- C6: toggling an index whose layout slot is a gap is a silent no-op:
no write is issued and the participant's stored record (including
`lastActive`) is unchanged. -/
theorem c6_toggle_gap (layout : List (Option String))
    (store my : Option ParticipantRecord) (now i : Nat)
    (h : layout.get? i = some none) :
    toggleCell layout my now i = none ∧
    storeAfterToggle store my layout now i = store := by
  have h1 : toggleCell layout my now i = none := by
    cases my with
    | none => rfl
    | some p =>
      simp only [toggleCell]
      rw [if_pos h]
  refine ⟨h1, ?_⟩
  unfold storeAfterToggle
  rw [h1]

/-- Witness for C6 on a layout whose slot 0 is a gap. -/
theorem c6_toggle_gap_witness :
    toggleCell [none, some "a"] (some ⟨"n", [1], "u", some 3⟩) 9 0 = none ∧
    storeAfterToggle (some ⟨"n", [1], "u", some 3⟩)
      (some ⟨"n", [1], "u", some 3⟩) [none, some "a"] 9 0
      = some ⟨"n", [1], "u", some 3⟩ :=
  c6_toggle_gap [none, some "a"] (some ⟨"n", [1], "u", some 3⟩)
    (some ⟨"n", [1], "u", some 3⟩) 9 0 rfl

/-- The `checkedIndices` invariant: no duplicates, and every index
addresses an in-range, non-gap layout slot. -/
def checkedInvariant (layout : List (Option String)) (checks : List Nat) : Prop :=
  checks.Nodup ∧ ∀ i ∈ checks, ∃ s, layout.get? i = some (some s)

/-- C7: the record created at join (empty marked set) satisfies the
`checkedIndices` invariant, and `toggleCell` preserves it for every index
the UI can supply (any index into the layout): whenever it writes a
record, that record again satisfies the invariant. -/
theorem c7_invariant_preserved (layout : List (Option String))
    (p : ParticipantRecord) (now i : Nat)
    (hinv : checkedInvariant layout p.checkedIndices) (hi : i < layout.length) :
    checkedInvariant layout [] ∧
    ∀ p', toggleCell layout (some p) now i = some p' →
      checkedInvariant layout p'.checkedIndices := by
  refine ⟨⟨List.nodup_nil, by simp⟩, ?_⟩
  intro p' hp'
  simp only [toggleCell] at hp'
  by_cases hg : layout.get? i = some none
  · rw [if_pos hg] at hp'
    cases hp'
  · rw [if_neg hg] at hp'
    have hslot : ∃ s, layout.get? i = some (some s) := by
      cases hcell : layout.get? i with
      | none =>
        rw [List.get?_eq_getElem?, List.getElem?_eq_none_iff] at hcell
        omega
      | some c =>
        cases c with
        | none => exact absurd hcell hg
        | some s => exact ⟨s, rfl⟩
    by_cases hmem : i ∈ p.checkedIndices
    · rw [if_pos hmem] at hp'
      injection hp' with hp'
      subst hp'
      refine ⟨hinv.1.filter _, ?_⟩
      intro j hj
      exact hinv.2 j (List.mem_filter.1 hj).1
    · rw [if_neg hmem] at hp'
      injection hp' with hp'
      subst hp'
      constructor
      · simp only [List.nodup_append, List.nodup_cons, List.nodup_nil]
        exact ⟨hinv.1, by simp, by simpa using hmem⟩
      · intro j hj
        rcases List.mem_append.1 hj with hj | hj
        · exact hinv.2 j hj
        · rw [List.mem_singleton.1 hj]
          exact hslot

/-- Witness for C7: toggling cell 1 of a 2-slot layout from an empty
marked set. -/
theorem c7_invariant_preserved_witness :
    checkedInvariant [none, some "a"] [] ∧
    ∀ p', toggleCell [none, some "a"] (some ⟨"n", [], "u", none⟩) 4 1 = some p' →
      checkedInvariant [none, some "a"] p'.checkedIndices :=
  c7_invariant_preserved [none, some "a"] ⟨"n", [], "u", none⟩ 4 1
    ⟨List.nodup_nil, by simp⟩ (by decide)

/-- C10: a toggle issued before the caller's own participant record has
been observed is a complete silent no-op: no write is issued and the
store (whatever it holds for this identity) is unchanged — even for a
valid non-gap index. -/
theorem c10_toggle_without_record (layout : List (Option String))
    (store : Option ParticipantRecord) (now i : Nat) :
    toggleCell layout none now i = none ∧
    storeAfterToggle store none layout now i = store :=
  ⟨rfl, rfl⟩

end Bingo

namespace Bingo

/-! ### Presence ordering (C4) -/

/-- The sort key used by the participants comparator:
`x.lastActive?.toMillis() || 0` — a missing recency value is treated as
`0`, the minimum possible timestamp. -/
def presenceKey (p : ParticipantRecord) : Nat :=
  p.lastActive.getD 0

/-- The comparator `(a, b) => timeB - timeA`: `a` may precede `b` exactly
when the comparator is non-positive, i.e. `presenceKey b ≤ presenceKey a`
(most recently active first). -/
def byLastActiveDesc (a b : ParticipantRecord) : Prop :=
  presenceKey b ≤ presenceKey a

instance : DecidableRel byLastActiveDesc :=
  fun _ _ => Nat.decLe _ _

instance : IsTotal ParticipantRecord byLastActiveDesc :=
  ⟨fun _ _ => Nat.le_total _ _⟩

instance : IsTrans ParticipantRecord byLastActiveDesc :=
  ⟨fun _ _ _ hab hbc => Nat.le_trans hbc hab⟩

/-- `parts.sort((a, b) => (b.lastActive?.toMillis() || 0) -
(a.lastActive?.toMillis() || 0))`, modelled as a sort by the comparator's
total preorder. -/
def sortParticipants (parts : List ParticipantRecord) : List ParticipantRecord :=
  parts.insertionSort byLastActiveDesc

/-- C4: the presence ordering is a permutation of the live records sorted
by `lastActive` descending; a missing recency value sorts as the minimum
possible value; a strictly larger `lastActive` always places a record
strictly earlier; and a record strictly more recent than all others is
placed first. -/
theorem c4_presence_ordering (parts : List ParticipantRecord) :
    (sortParticipants parts).Perm parts ∧
    (sortParticipants parts).Sorted byLastActiveDesc ∧
    (∀ p : ParticipantRecord, p.lastActive = none → presenceKey p = 0) ∧
    (∀ A B iA iB, A ∈ parts → B ∈ parts → presenceKey A < presenceKey B →
      (sortParticipants parts).get? iA = some A →
      (sortParticipants parts).get? iB = some B → iB < iA) ∧
    (∀ p ∈ parts, (∀ q ∈ parts, q ≠ p → presenceKey q < presenceKey p) →
      (sortParticipants parts).head? = some p) := by
  have hperm : (sortParticipants parts).Perm parts :=
    List.perm_insertionSort byLastActiveDesc parts
  have hsort : (sortParticipants parts).Sorted byLastActiveDesc :=
    List.sorted_insertionSort byLastActiveDesc parts
  refine ⟨hperm, hsort, fun p hp => by simp [presenceKey, hp], ?_, ?_⟩
  · intro A B iA iB hA hB hkey hgA hgB
    by_contra hcon
    push_neg at hcon
    rw [List.get?_eq_getElem?, List.getElem?_eq_some_iff] at hgA hgB
    obtain ⟨hiA, hvA⟩ := hgA
    obtain ⟨hiB, hvB⟩ := hgB
    rcases Nat.lt_or_ge iA iB with hlt | hge
    · have hrel := List.pairwise_iff_getElem.1 hsort iA iB hiA hiB hlt
      rw [hvA, hvB] at hrel
      simp only [byLastActiveDesc] at hrel
      omega
    · have heq : iA = iB := Nat.le_antisymm hcon hge
      subst heq
      rw [hvA] at hvB
      subst hvB
      omega
  · intro p hp hmax
    have hmem : p ∈ sortParticipants parts := hperm.mem_iff.2 hp
    cases hs : sortParticipants parts with
    | nil => rw [hs] at hmem; cases hmem
    | cons hfst tl =>
      rw [hs] at hmem hsort
      by_cases heq : hfst = p
      · simp [heq]
      · have hinparts : hfst ∈ parts := by
          refine hperm.mem_iff.1 ?_
          rw [hs]
          exact List.mem_cons_self _ _
        have hlt := hmax hfst hinparts heq
        rcases List.mem_cons.1 hmem with h1 | h1
        · exact absurd h1.symm heq
        · have hle := (List.sorted_cons.1 hsort).1 p h1
          simp only [byLastActiveDesc] at hle
          omega

/-- Witness for C4: the strictly more recent of two records is placed
first. -/
theorem c4_presence_ordering_witness :
    (sortParticipants [⟨"a", [], "ua", some 1⟩, ⟨"b", [], "ub", some 2⟩]).head?
      = some ⟨"b", [], "ub", some 2⟩ :=
  (c4_presence_ordering [⟨"a", [], "ua", some 1⟩, ⟨"b", [], "ub", some 2⟩]).2.2.2.2
    ⟨"b", [], "ub", some 2⟩ (by decide) (by decide)

end Bingo

namespace Bingo

/-! ### Recent sessions feed (C8) -/

/-- A session document as stored at creation:
`{ layout, createdAt, creatorId, participantCount }` plus its document
id.  (`creatorId` plays no role in the feed and is omitted.) -/
structure Game where
  id : String
  layout : List (Option String)
  createdAt : Nat
  participantCount : Int
deriving DecidableEq

/-- The preview line of a recent-games card:
`g.layout.filter(x => x).slice(0, 3).join(', ') +
 (g.layout.filter(x => x).length > 3 ? '...' : '')`.
JS truthiness keeps exactly the non-null, non-empty-string slots. -/
def previewText (layout : List (Option String)) : String :=
  let vals := (layout.filterMap id).filter (fun s => s != "")
  String.intercalate ", " (vals.take 3)
    ++ (if 3 < vals.length then "..." else "")

/-- The feed query comparator: `orderBy('createdAt', 'desc')`. -/
def byCreatedAtDesc (a b : Game) : Prop :=
  b.createdAt ≤ a.createdAt

instance : DecidableRel byCreatedAtDesc :=
  fun _ _ => Nat.decLe _ _

instance : IsTotal Game byCreatedAtDesc :=
  ⟨fun _ _ => Nat.le_total _ _⟩

instance : IsTrans Game byCreatedAtDesc :=
  ⟨fun _ _ _ hab hbc => Nat.le_trans hbc hab⟩

/-- The store contract for
`query(games, orderBy('createdAt', 'desc'), limit(6))`: the session
collection ordered by `createdAt` descending, bounded to the 6 most
recent documents. -/
def queryRecentGames (games : List Game) : List Game :=
  (games.insertionSort byCreatedAtDesc).take 6

/-- What one recent-games card surfaces: the session id, its
`participantCount`, and the preview line. -/
structure FeedEntry where
  id : String
  participantCount : Int
  preview : String
deriving DecidableEq

/-- The rendered recent-games list: one card per queried session. -/
def recentGamesFeed (games : List Game) : List FeedEntry :=
  (queryRecentGames games).map (fun g =>
    { id := g.id, participantCount := g.participantCount,
      preview := previewText g.layout })

/-- C8: the feed holds at most 6 sessions, ordered by `createdAt`
descending, and omits only sessions no newer than every surfaced one;
each card surfaces the session's id, `participantCount` and preview; and
on layouts whose non-gap items are non-empty the preview is the first 3
non-gap items joined by `", "` with `"..."` appended exactly when more
than 3 non-gap items exist. -/
theorem c8_recent_sessions_feed (games : List Game) :
    (recentGamesFeed games).length ≤ 6 ∧
    (queryRecentGames games).Sorted byCreatedAtDesc ∧
    (∀ g ∈ games, g ∉ queryRecentGames games →
      ∀ g' ∈ queryRecentGames games, g.createdAt ≤ g'.createdAt) ∧
    (∀ layout : List (Option String), (∀ s ∈ layout.filterMap id, s ≠ "") →
      previewText layout
        = String.intercalate ", " ((layout.filterMap id).take 3)
            ++ (if 3 < (layout.filterMap id).length then "..." else "")) ∧
    (∀ e ∈ recentGamesFeed games, ∃ g, g ∈ queryRecentGames games ∧
      e.id = g.id ∧ e.participantCount = g.participantCount ∧
      e.preview = previewText g.layout) := by
  have hsorted := List.sorted_insertionSort byCreatedAtDesc games
  refine ⟨?_, ?_, ?_, ?_, ?_⟩
  · rw [recentGamesFeed, List.length_map, queryRecentGames, List.length_take]
    exact Nat.min_le_left _ _
  · exact List.Pairwise.sublist (List.take_sublist _ _) hsorted
  · intro g hg hnotin g' hg'
    have hgs : g ∈ games.insertionSort byCreatedAtDesc :=
      (List.perm_insertionSort byCreatedAtDesc games).mem_iff.2 hg
    rw [← List.take_append_drop 6 (games.insertionSort byCreatedAtDesc)] at hgs hsorted
    rcases List.mem_append.1 hgs with hmem | hmem
    · exact absurd hmem hnotin
    · exact (List.pairwise_append.1 hsorted).2.2 g' hg' g hmem
  · intro layout hne
    have hfix : (layout.filterMap id).filter (fun s => s != "")
        = layout.filterMap id := by
      refine List.filter_eq_self.2 fun a ha => ?_
      simpa using hne a ha
    simp only [previewText, hfix]
  · intro e he
    rw [recentGamesFeed, List.mem_map] at he
    obtain ⟨g, hg, rfl⟩ := he
    exact ⟨g, hg, rfl, rfl, rfl⟩

/-- Witness for C8: the preview of a concrete layout with two non-gap
items. -/
theorem c8_recent_sessions_feed_witness :
    previewText [some "x", none, some "y"]
      = String.intercalate ", " (([some "x", none, some "y"].filterMap id).take 3)
          ++ (if 3 < ([some "x", none, some "y"].filterMap id).length
              then "..." else "") :=
  (c8_recent_sessions_feed []).2.2.2.1 [some "x", none, some "y"] (by decide)

end Bingo
